import Mathlib

/-!
# CloudDrop: verification of the crypto and transfer engine

Shallow embedding of the CloudDrop client core (`public/js/crypto.js`,
`public/js/webrtc.js`): per-peer key management and AES-GCM framed
encryption, chunked file transfer over the direct data channel and the
relay path, perfect-negotiation offer handling, ICE restart bounding,
candidate buffering and per-peer teardown.

Bytes are modelled as `Nat`, byte buffers as `List Nat`.  The Web Crypto
AES-GCM primitive (an external platform API) is modelled as an ideal
authenticated cipher: encryption masks the plaintext with a key/nonce
keystream and appends a 16-byte tag that deterministically binds the key,
the nonce and the ciphertext body; decryption succeeds exactly on the
buffers produced by encryption and fails with an authentication error
otherwise.  Ciphertext length is plaintext length + 16, matching AES-GCM.
-/

namespace CloudDrop

/-- Errors surfaced by the crypto layer (`throw new Error(...)` in
`crypto.js`, plus the TypeError raised by dereferencing a null key pair). -/
inductive CryptoError
  | noSharedKey
  | authenticationFailed
  | typeError
  deriving DecidableEq, Repr

/-- Injective encoding of a byte list into a single natural number. -/
def encodeList : List Nat → Nat
  | [] => 0
  | a :: l => Nat.pair a (encodeList l) + 1

theorem encodeList_inj : ∀ {l1 l2 : List Nat}, encodeList l1 = encodeList l2 → l1 = l2
  | [], [], _ => rfl
  | [], _ :: _, h => by simp [encodeList] at h
  | _ :: _, [], h => by simp [encodeList] at h
  | a :: l1, b :: l2, h => by
      simp only [encodeList, Nat.add_right_cancel_iff, Nat.pair_eq_pair] at h
      rw [h.1, encodeList_inj h.2]

/-- Keystream byte `i` of the ideal cipher for a given key and nonce. -/
def keystream (key n i : Nat) : Nat := Nat.pair key (Nat.pair n i)

/-- Mask a byte list with the keystream starting at index `i`; XOR makes
this function its own inverse. -/
def maskBytes (key n : Nat) : Nat → List Nat → List Nat
  | _, [] => []
  | i, p :: ps => (p ^^^ keystream key n i) :: maskBytes key n (i + 1) ps

theorem maskBytes_length (key n : Nat) :
    ∀ (i : Nat) (l : List Nat), (maskBytes key n i l).length = l.length
  | _, [] => rfl
  | i, _ :: ps => by simp [maskBytes, maskBytes_length key n (i + 1) ps]

theorem maskBytes_maskBytes (key n : Nat) :
    ∀ (i : Nat) (l : List Nat), maskBytes key n i (maskBytes key n i l) = l
  | _, [] => rfl
  | i, p :: ps => by
      simp [maskBytes, maskBytes_maskBytes key n (i + 1) ps, Nat.xor_assoc,
        Nat.xor_self, Nat.xor_zero]

/-- Sixteen-byte authentication tag of the ideal cipher: deterministically
binds the key, the nonce and the ciphertext body. -/
def gcmTag (key : Nat) (nonce body : List Nat) : List Nat :=
  Nat.pair key (Nat.pair (encodeList nonce) (encodeList body)) :: List.replicate 15 0

theorem gcmTag_length (key : Nat) (nonce body : List Nat) :
    (gcmTag key nonce body).length = 16 := by
  simp [gcmTag]

theorem gcmTag_inj {key : Nat} {n1 n2 b1 b2 : List Nat}
    (h : gcmTag key n1 b1 = gcmTag key n2 b2) : n1 = n2 ∧ b1 = b2 := by
  simp only [gcmTag, List.cons.injEq, Nat.pair_eq_pair] at h
  exact ⟨encodeList_inj h.1.2.1, encodeList_inj h.1.2.2⟩

/-- Modelled from the spec: AES-GCM encryption (Web Crypto
`crypto.subtle.encrypt` with `AES-GCM`), an external platform primitive.
The ciphertext is the masked plaintext followed by the 16-byte tag. -/
def GCMEncrypt (key : Nat) (nonce pt : List Nat) : List Nat :=
  maskBytes key (encodeList nonce) 0 pt ++
    gcmTag key nonce (maskBytes key (encodeList nonce) 0 pt)

/-- Modelled from the spec: AES-GCM decryption (Web Crypto
`crypto.subtle.decrypt`).  Splits off the 16-byte tag, recomputes it and
fails closed when it does not verify. -/
def GCMDecrypt (key : Nat) (nonce ct : List Nat) : Except CryptoError (List Nat) :=
  if ct.length < 16 then .error .authenticationFailed
  else if ct.drop (ct.length - 16) = gcmTag key nonce (ct.take (ct.length - 16)) then
    .ok (maskBytes key (encodeList nonce) 0 (ct.take (ct.length - 16)))
  else .error .authenticationFailed

theorem GCMEncrypt_length (key : Nat) (nonce pt : List Nat) :
    (GCMEncrypt key nonce pt).length = pt.length + 16 := by
  simp [GCMEncrypt, maskBytes_length, gcmTag_length]

theorem GCMDecrypt_GCMEncrypt (key : Nat) (nonce pt : List Nat) :
    GCMDecrypt key nonce (GCMEncrypt key nonce pt) = .ok pt := by
  have hlen : (GCMEncrypt key nonce pt).length = pt.length + 16 :=
    GCMEncrypt_length key nonce pt
  have hbody : (maskBytes key (encodeList nonce) 0 pt).length = pt.length :=
    maskBytes_length key (encodeList nonce) 0 pt
  have htake : (GCMEncrypt key nonce pt).take ((GCMEncrypt key nonce pt).length - 16)
      = maskBytes key (encodeList nonce) 0 pt := by
    rw [hlen, Nat.add_sub_cancel, GCMEncrypt, ← hbody, List.take_left]
  have hdrop : (GCMEncrypt key nonce pt).drop ((GCMEncrypt key nonce pt).length - 16)
      = gcmTag key nonce (maskBytes key (encodeList nonce) 0 pt) := by
    rw [hlen, Nat.add_sub_cancel, GCMEncrypt, ← hbody, List.drop_left]
  rw [GCMDecrypt, if_neg (by omega), htake, hdrop, if_pos rfl,
    maskBytes_maskBytes]

theorem GCMDecrypt_ok {key : Nat} {nonce ct q : List Nat}
    (h : GCMDecrypt key nonce ct = .ok q) : ct = GCMEncrypt key nonce q := by
  rw [GCMDecrypt] at h
  split at h
  · exact absurd h (by simp)
  · split at h
    · rename_i htag
      have hq : q = maskBytes key (encodeList nonce) 0 (ct.take (ct.length - 16)) := by
        simpa using h.symm
      have hbody : maskBytes key (encodeList nonce) 0 q = ct.take (ct.length - 16) := by
        rw [hq, maskBytes_maskBytes]
      rw [GCMEncrypt, hbody, ← htag, List.take_append_drop]
    · exact absurd h (by simp)

/-- State of `CryptoManager` (`crypto.js`): an optional local ECDH key
pair (abstract, one `Nat` of private material) and the per-peer shared
secrets map. -/
structure CryptoManager where
  keyPair : Option Nat
  sharedSecrets : List (String × Nat)
  deriving DecidableEq, Repr

/-- Lookup of `this.sharedSecrets.get(peerId)`. -/
def CryptoManager.lookupSecret (cm : CryptoManager) (peerId : String) : Option Nat :=
  cm.sharedSecrets.lookup peerId

/-- Method `CryptoManager.hasSharedSecret`. -/
def CryptoManager.hasSharedSecret (cm : CryptoManager) (peerId : String) : Bool :=
  (cm.lookupSecret peerId).isSome

/-- Method `CryptoManager.encrypt`: fails when no shared key is stored for the
peer; otherwise encrypts under that key with the fresh random 12-byte IV
(the randomness is an explicit input of the embedding) and returns the
ciphertext together with the IV. -/
def CryptoManager.encrypt (cm : CryptoManager) (peerId : String) (iv data : List Nat) :
    Except CryptoError (List Nat × List Nat) :=
  match cm.lookupSecret peerId with
  | none => .error .noSharedKey
  | some key => .ok (GCMEncrypt key iv data, iv)

/-- Method `CryptoManager.decrypt`: fails when no shared key is stored, otherwise
AES-GCM decryption under the stored key. -/
def CryptoManager.decrypt (cm : CryptoManager) (peerId : String)
    (encryptedData iv : List Nat) : Except CryptoError (List Nat) :=
  match cm.lookupSecret peerId with
  | none => .error .noSharedKey
  | some key => GCMDecrypt key iv encryptedData

/-- Method `CryptoManager.encryptChunk`: encrypts and prepends the IV to the
ciphertext, producing the framed wire buffer `iv ++ ciphertext`. -/
def CryptoManager.encryptChunk (cm : CryptoManager) (peerId : String)
    (iv chunk : List Nat) : Except CryptoError (List Nat) :=
  match cm.encrypt peerId iv chunk with
  | .error e => .error e
  | .ok (encrypted, iv) => .ok (iv ++ encrypted)

/-- Method `CryptoManager.decryptChunk`: splits the first 12 bytes as the IV,
the remainder as ciphertext, then decrypts. -/
def CryptoManager.decryptChunk (cm : CryptoManager) (peerId : String)
    (data : List Nat) : Except CryptoError (List Nat) :=
  cm.decrypt peerId (data.drop 12) (data.take 12)

/-- Method `CryptoManager.removePeer`: discards the stored shared secret. -/
def CryptoManager.removePeer (cm : CryptoManager) (peerId : String) : CryptoManager :=
  { cm with sharedSecrets := cm.sharedSecrets.filter (fun kv => kv.1 ≠ peerId) }

theorem GCMDecrypt_split (key : Nat) (nonce b t : List Nat) (ht : t.length = 16) :
    GCMDecrypt key nonce (b ++ t) =
      if t = gcmTag key nonce b then .ok (maskBytes key (encodeList nonce) 0 b)
      else .error .authenticationFailed := by
  have hlen : (b ++ t).length = b.length + 16 := by simp [ht]
  have hsub : (b ++ t).length - 16 = b.length := by omega
  rw [GCMDecrypt, if_neg (by omega), hsub, List.take_left, List.drop_left]

theorem encryptChunk_eq {cm : CryptoManager} {peerId : String} {key : Nat}
    (hk : cm.lookupSecret peerId = some key) (iv chunk : List Nat) :
    cm.encryptChunk peerId iv chunk = .ok (iv ++ GCMEncrypt key iv chunk) := by
  simp [CryptoManager.encryptChunk, CryptoManager.encrypt, hk]

theorem decryptChunk_append {cm : CryptoManager} {peerId : String} {iv : List Nat}
    (hiv : iv.length = 12) (ct : List Nat) :
    cm.decryptChunk peerId (iv ++ ct) = cm.decrypt peerId ct iv := by
  rw [CryptoManager.decryptChunk, ← hiv, List.take_left, List.drop_left]

theorem decryptChunk_encryptChunk {cm : CryptoManager} {peerId : String} {key : Nat}
    (hk : cm.lookupSecret peerId = some key) {iv : List Nat} (hiv : iv.length = 12)
    (chunk : List Nat) :
    cm.decryptChunk peerId (iv ++ GCMEncrypt key iv chunk) = .ok chunk := by
  rw [decryptChunk_append hiv]
  simp only [CryptoManager.decrypt, hk]
  exact GCMDecrypt_GCMEncrypt key iv chunk

/-- C1: for every peer with a stored shared key and every plaintext chunk,
`decryptChunk` of `encryptChunk` returns the plaintext; the framed wire
buffer is the 12-byte nonce followed by the ciphertext (masked body plus
16-byte tag); altering the nonce, the ciphertext body, or the tag of the
framed buffer makes decryption fail with an authentication error; and any
successful decryption returns exactly the plaintext whose framed
encryption under the nonce of the buffer is that buffer, so a different
plaintext is never silently returned. -/
theorem claim_c1_encrypt_decrypt_roundtrip (cm : CryptoManager) (peerId : String)
    (key : Nat) (hk : cm.lookupSecret peerId = some key)
    (iv p : List Nat) (hiv : iv.length = 12) :
    ∃ body tag : List Nat,
      cm.encryptChunk peerId iv p = .ok (iv ++ (body ++ tag)) ∧
      cm.decryptChunk peerId (iv ++ (body ++ tag)) = .ok p ∧
      (∀ iv2, iv2.length = 12 → iv2 ≠ iv →
        cm.decryptChunk peerId (iv2 ++ (body ++ tag)) = .error .authenticationFailed) ∧
      (∀ body2, body2 ≠ body →
        cm.decryptChunk peerId (iv ++ (body2 ++ tag)) = .error .authenticationFailed) ∧
      (∀ tag2, tag2.length = 16 → tag2 ≠ tag →
        cm.decryptChunk peerId (iv ++ (body ++ tag2)) = .error .authenticationFailed) ∧
      (∀ buf q, cm.decryptChunk peerId buf = .ok q →
        cm.encryptChunk peerId (buf.take 12) q = .ok buf) := by
  refine ⟨maskBytes key (encodeList iv) 0 p,
    gcmTag key iv (maskBytes key (encodeList iv) 0 p), ?_, ?_, ?_, ?_, ?_, ?_⟩
  · rw [encryptChunk_eq hk]; rfl
  · have h := decryptChunk_encryptChunk hk hiv p
    rwa [GCMEncrypt] at h
  · intro iv2 hiv2 hne
    rw [decryptChunk_append hiv2]
    simp only [CryptoManager.decrypt, hk]
    rw [GCMDecrypt_split _ _ _ _ (gcmTag_length _ _ _), if_neg]
    intro hEq
    exact hne ((gcmTag_inj hEq.symm).1)
  · intro body2 hne
    rw [decryptChunk_append hiv]
    simp only [CryptoManager.decrypt, hk]
    rw [GCMDecrypt_split _ _ _ _ (gcmTag_length _ _ _), if_neg]
    intro hEq
    exact hne ((gcmTag_inj hEq).2).symm
  · intro tag2 htag2 hne
    rw [decryptChunk_append hiv]
    simp only [CryptoManager.decrypt, hk]
    rw [GCMDecrypt_split _ _ _ _ htag2, if_neg]
    intro hEq
    exact hne hEq
  · intro buf q hbuf
    rw [CryptoManager.decryptChunk] at hbuf
    simp only [CryptoManager.decrypt, hk] at hbuf
    have hdrop := GCMDecrypt_ok hbuf
    rw [encryptChunk_eq hk, ← hdrop, List.take_append_drop]

/-- Witness for C1 at a concrete manager, key, nonce and plaintext. -/
theorem claim_c1_encrypt_decrypt_roundtrip_witness :
    ∃ body tag : List Nat,
      CryptoManager.encryptChunk ⟨some 0, [("b", 5)]⟩ "b" (List.replicate 12 0) [1, 2, 3]
        = .ok (List.replicate 12 0 ++ (body ++ tag)) ∧
      CryptoManager.decryptChunk ⟨some 0, [("b", 5)]⟩ "b"
        (List.replicate 12 0 ++ (body ++ tag)) = .ok [1, 2, 3] ∧
      (∀ iv2, iv2.length = 12 → iv2 ≠ List.replicate 12 0 →
        CryptoManager.decryptChunk ⟨some 0, [("b", 5)]⟩ "b" (iv2 ++ (body ++ tag))
          = .error .authenticationFailed) ∧
      (∀ body2, body2 ≠ body →
        CryptoManager.decryptChunk ⟨some 0, [("b", 5)]⟩ "b"
          (List.replicate 12 0 ++ (body2 ++ tag)) = .error .authenticationFailed) ∧
      (∀ tag2, tag2.length = 16 → tag2 ≠ tag →
        CryptoManager.decryptChunk ⟨some 0, [("b", 5)]⟩ "b"
          (List.replicate 12 0 ++ (body ++ tag2)) = .error .authenticationFailed) ∧
      (∀ buf q, CryptoManager.decryptChunk ⟨some 0, [("b", 5)]⟩ "b" buf = .ok q →
        CryptoManager.encryptChunk ⟨some 0, [("b", 5)]⟩ "b" (buf.take 12) q = .ok buf) :=
  claim_c1_encrypt_decrypt_roundtrip ⟨some 0, [("b", 5)]⟩ "b" 5 (by decide)
    (List.replicate 12 0) [1, 2, 3] (by decide)

/-! ## Perfect-negotiation role assignment (`WebRTCManager._isPolite`) -/

/-- Method `WebRTCManager._isPolite`: the local peer is polite when its own id is
lexicographically smaller than the remote id; when the local id is not set
yet (JavaScript falsiness: `undefined` or the empty string) it defaults to
polite. -/
def isPolite (myPeerId : Option String) (peerId : String) : Bool :=
  match myPeerId with
  | none => true
  | some m => if m = "" then true else decide (m < peerId)

theorem empty_lt_of_ne {b : String} (hb : b ≠ "") : "" < b := by
  rw [String.lt_iff_toList_lt]
  cases b with
  | mk l =>
    cases l with
    | nil => exact absurd rfl hb
    | cons c cs => exact List.nil_lt_cons c cs

/-- C6: for any two distinct peer ids, exactly one of the two sides
computes itself as polite (swapping the local peer negates the polite
bit), and a peer whose own id is unknown computes itself as polite. -/
theorem claim_c6_polite_exactly_one (a b : String) (hne : a ≠ b) :
    isPolite (some a) b = !isPolite (some b) a ∧ ∀ p, isPolite none p = true := by
  refine ⟨?_, fun p => rfl⟩
  by_cases ha : a = ""
  · subst ha
    have hb : b ≠ "" := fun h => hne h.symm
    have h1 : ¬b < "" := lt_asymm (empty_lt_of_ne hb)
    simp [isPolite, hb, h1]
  · by_cases hb : b = ""
    · subst hb
      have h1 : ¬a < "" := lt_asymm (empty_lt_of_ne ha)
      simp [isPolite, ha, h1]
    · rcases lt_trichotomy a b with h | h | h
      · simp [isPolite, ha, hb, h, lt_asymm h]
      · exact absurd h hne
      · simp [isPolite, ha, hb, h, lt_asymm h, not_lt_of_gt h]

/-- Witness for C6 at the concrete pair of peer ids "a" and "b". -/
theorem claim_c6_polite_exactly_one_witness :
    isPolite (some "a") "b" = !isPolite (some "b") "a" ∧
      ∀ p, isPolite none p = true :=
  claim_c6_polite_exactly_one "a" "b" (by decide)

/-! ## Transfer protocol engine (`WebRTCManager.sendFile` / `handleMessage` /
`handleRelayData`, `webrtc.js`) -/

/-- Constant `CHUNK_SIZE = 64 * 1024` in `webrtc.js`. -/
def CHUNK_SIZE : Nat := 64 * 1024

/-- Chunking performed by the `sendFile` loop: `file.slice(offset, offset +
CHUNK_SIZE)` for `offset = 0, CHUNK_SIZE, ...` while `offset < file.size`. -/
def chunksOf : List Nat → List (List Nat)
  | [] => []
  | a :: l => ((a :: l).take CHUNK_SIZE) :: chunksOf ((a :: l).drop CHUNK_SIZE)
  termination_by l => l.length
  decreasing_by simp [CHUNK_SIZE]; omega

theorem chunksOf_join : ∀ l : List Nat, (chunksOf l).flatten = l
  | [] => by simp [chunksOf]
  | a :: l => by
      have ih := chunksOf_join ((a :: l).drop CHUNK_SIZE)
      simp only [chunksOf, List.flatten_cons]
      rw [ih, List.take_append_drop]
  termination_by l => l.length
  decreasing_by simp [CHUNK_SIZE]; omega

theorem ceil_div_step (n C : Nat) (hC : 0 < C) (hn : 0 < n) :
    (n - C + C - 1) / C + 1 = (n + C - 1) / C := by
  rcases le_or_lt n C with hle | hlt
  · have h1 : n - C = 0 := by omega
    have h2 : (0 + C - 1) / C = 0 := Nat.div_eq_of_lt (by omega)
    have h3 : n + C - 1 = (n - 1) + C := by omega
    rw [h1, h2, h3, Nat.add_div_right _ hC, Nat.div_eq_of_lt (by omega)]
  · have h3 : n - C + C - 1 = (n - C - 1) + C := by omega
    have h4 : n + C - 1 = ((n - C - 1) + C) + C := by omega
    rw [h3, h4, Nat.add_div_right _ hC, Nat.add_div_right _ hC,
      Nat.add_div_right _ hC]

theorem chunksOf_length : ∀ l : List Nat,
    (chunksOf l).length = (l.length + CHUNK_SIZE - 1) / CHUNK_SIZE
  | [] => by
      have h : (0 + CHUNK_SIZE - 1) / CHUNK_SIZE = 0 :=
        Nat.div_eq_of_lt (by norm_num [CHUNK_SIZE])
      simp only [chunksOf, List.length_nil]
      exact h.symm
  | a :: l => by
      have ih := chunksOf_length ((a :: l).drop CHUNK_SIZE)
      simp only [chunksOf, List.length_cons]
      rw [ih, List.length_drop]
      exact ceil_div_step (a :: l).length CHUNK_SIZE (by norm_num [CHUNK_SIZE])
        (by simp)
  termination_by l => l.length
  decreasing_by simp [CHUNK_SIZE]; omega

/-- Records travelling over the direct data channel: JSON control records
(`file-start`, `file-end`, `text`) and binary encrypted chunk frames. -/
inductive WireMsg
  | fileStart (fileId : Nat) (name : String) (size totalChunks : Nat)
  | binaryChunk (data : List Nat)
  | fileEnd (fileId : Nat)
  | textRecord (content : String)
  deriving DecidableEq, Repr

/-- Boolean test for a binary data chunk record. -/
def WireMsg.isData : WireMsg → Bool
  | .binaryChunk _ => true
  | _ => false

/-- Encryption of the successive file chunks in the `sendFile` loop,
starting at chunk index `i`; `nonces` supplies the fresh random IV drawn
for each encryption. -/
def encryptChunksFrom (cm : CryptoManager) (peerId : String) (nonces : Nat → List Nat) :
    Nat → List (List Nat) → Except CryptoError (List (List Nat))
  | _, [] => .ok []
  | i, c :: cs =>
    match cm.encryptChunk peerId (nonces i) c with
    | .error e => .error e
    | .ok e =>
      match encryptChunksFrom cm peerId nonces (i + 1) cs with
      | .error e2 => .error e2
      | .ok es => .ok (e :: es)

/-- Method `WebRTCManager.sendFile` on the direct channel, as the sequence of
records it writes: a `file-start` control record with the declared size
and chunk count `Math.ceil(size / CHUNK_SIZE)`, one encrypted binary frame
per chunk, then a `file-end` control record. -/
def sendFileMsgs (cm : CryptoManager) (peerId : String) (nonces : Nat → List Nat)
    (fileId : Nat) (name : String) (file : List Nat) :
    Except CryptoError (List WireMsg) :=
  match encryptChunksFrom cm peerId nonces 0 (chunksOf file) with
  | .error e => .error e
  | .ok encs =>
    .ok (.fileStart fileId name file.length ((file.length + CHUNK_SIZE - 1) / CHUNK_SIZE)
      :: (encs.map WireMsg.binaryChunk ++ [.fileEnd fileId]))

/-- Per-peer state of one in-flight inbound transfer, as built by
`handleMessage` / `handleRelayData` (`incomingTransfers` map entry). -/
structure Transfer where
  fileId : Nat
  name : String
  size : Nat
  totalChunks : Nat
  chunks : List (List Nat)
  received : Nat
  deriving DecidableEq, Repr

/-- Method `WebRTCManager.handleMessage` for one peer: the inbound transfer slot
is `incomingTransfers.get(peerId)` (keyed by peer, not by transfer id).
Returns the new slot and the list of completed files (name, bytes) handed
to `onFileReceived`.  A binary chunk with no in-flight transfer is
dropped; a chunk that fails decryption leaves the transfer unchanged
(the thrown error aborts the handler before the push); `file-end`
completes whatever transfer is in flight without consulting its fileId. -/
def handleMessage (cm : CryptoManager) (peerId : String) (st : Option Transfer) :
    WireMsg → Option Transfer × List (String × List Nat)
  | .fileStart fid name size total => (some ⟨fid, name, size, total, [], 0⟩, [])
  | .fileEnd _ =>
    match st with
    | some t => (none, [(t.name, t.chunks.flatten)])
    | none => (none, [])
  | .binaryChunk d =>
    match st with
    | none => (none, [])
    | some t =>
      match cm.decryptChunk peerId d with
      | .ok pt =>
        (some { t with chunks := t.chunks ++ [pt], received := t.received + pt.length }, [])
      | .error _ => (some t, [])
  | .textRecord _ => (st, [])

/-- Folding `handleMessage` over a sequence of arriving records,
accumulating the completed files in order. -/
def runReceiver (cm : CryptoManager) (peerId : String) :
    Option Transfer → List WireMsg → Option Transfer × List (String × List Nat)
  | st, [] => (st, [])
  | st, m :: ms =>
    let r1 := handleMessage cm peerId st m
    let r2 := runReceiver cm peerId r1.1 ms
    (r2.1, r1.2 ++ r2.2)

theorem runReceiver_append (cm : CryptoManager) (peerId : String) :
    ∀ (ms1 : List WireMsg) (st : Option Transfer) (ms2 : List WireMsg),
    runReceiver cm peerId st (ms1 ++ ms2) =
      ((runReceiver cm peerId (runReceiver cm peerId st ms1).1 ms2).1,
        (runReceiver cm peerId st ms1).2 ++
          (runReceiver cm peerId (runReceiver cm peerId st ms1).1 ms2).2)
  | [], st, ms2 => by simp [runReceiver]
  | m :: ms1, st, ms2 => by
      simp only [List.cons_append, runReceiver, List.append_eq]
      rw [runReceiver_append cm peerId ms1]
      simp [List.append_assoc]

/-- The framed encrypted chunk sequence that `sendFile` writes for the
chunk list `cs`, starting at chunk index `i`. -/
def encryptedFrames (key : Nat) (nonces : Nat → List Nat) :
    Nat → List (List Nat) → List (List Nat)
  | _, [] => []
  | i, c :: cs => (nonces i ++ GCMEncrypt key (nonces i) c) ::
      encryptedFrames key nonces (i + 1) cs

theorem encryptChunksFrom_ok {cm : CryptoManager} {peerId : String} {key : Nat}
    (hk : cm.lookupSecret peerId = some key) (nonces : Nat → List Nat) :
    ∀ (cs : List (List Nat)) (i : Nat),
    encryptChunksFrom cm peerId nonces i cs = .ok (encryptedFrames key nonces i cs)
  | [], _ => by simp [encryptChunksFrom, encryptedFrames]
  | c :: cs, i => by
      rw [encryptChunksFrom, encryptChunk_eq hk,
        encryptChunksFrom_ok hk nonces cs (i + 1), encryptedFrames]

theorem encryptedFrames_length (key : Nat) (nonces : Nat → List Nat) :
    ∀ (i : Nat) (cs : List (List Nat)), (encryptedFrames key nonces i cs).length = cs.length
  | _, [] => rfl
  | i, _ :: cs => by
      simp [encryptedFrames, encryptedFrames_length key nonces (i + 1) cs]

theorem handleMessage_chunk_ok {cm : CryptoManager} {peerId : String} {key : Nat}
    (hk : cm.lookupSecret peerId = some key) {nonces : Nat → List Nat}
    (hn : ∀ j, (nonces j).length = 12) (i : Nat) (c : List Nat) (t : Transfer) :
    handleMessage cm peerId (some t)
        (.binaryChunk (nonces i ++ GCMEncrypt key (nonces i) c)) =
      (some { t with chunks := t.chunks ++ [c], received := t.received + c.length }, []) := by
  simp only [handleMessage, decryptChunk_encryptChunk hk (hn i) c]

theorem runReceiver_chunks {cm : CryptoManager} {peerId : String} {key : Nat}
    (hk : cm.lookupSecret peerId = some key) {nonces : Nat → List Nat}
    (hn : ∀ j, (nonces j).length = 12) :
    ∀ (cs : List (List Nat)) (i : Nat) (t : Transfer),
    runReceiver cm peerId (some t)
        ((encryptedFrames key nonces i cs).map WireMsg.binaryChunk) =
      (some { t with chunks := t.chunks ++ cs,
                     received := t.received + (cs.map List.length).sum }, [])
  | [], i, t => by simp [encryptedFrames, runReceiver]
  | c :: cs, i, t => by
      simp only [encryptedFrames, List.map_cons, runReceiver]
      rw [handleMessage_chunk_ok hk hn i c t]
      rw [runReceiver_chunks hk hn cs (i + 1)
        { t with chunks := t.chunks ++ [c], received := t.received + c.length }]
      simp [List.append_assoc, Nat.add_assoc]

/-- C2: for a file of size S sent with `sendFile` at the fixed 64 KiB
chunk size, exactly `ceil(S / CHUNK_SIZE)` encrypted data chunks are
emitted between the `file-start` and `file-end` records, and feeding the
emitted sequence to the `handleMessage` loop of the receiving side reassembles
(by concatenating the decrypted chunks in arrival order, delivered on
`file-end`) exactly the original S bytes. -/
theorem claim_c2_chunking_roundtrip (cm : CryptoManager) (peerId : String) (key : Nat)
    (hk : cm.lookupSecret peerId = some key) (nonces : Nat → List Nat)
    (hn : ∀ j, (nonces j).length = 12) (fileId : Nat) (name : String) (file : List Nat) :
    ∃ frames : List (List Nat),
      sendFileMsgs cm peerId nonces fileId name file =
        .ok (.fileStart fileId name file.length ((file.length + CHUNK_SIZE - 1) / CHUNK_SIZE)
          :: (frames.map WireMsg.binaryChunk ++ [.fileEnd fileId])) ∧
      frames.length = (file.length + CHUNK_SIZE - 1) / CHUNK_SIZE ∧
      runReceiver cm peerId none
        (.fileStart fileId name file.length ((file.length + CHUNK_SIZE - 1) / CHUNK_SIZE)
          :: (frames.map WireMsg.binaryChunk ++ [.fileEnd fileId])) =
        (none, [(name, file)]) := by
  refine ⟨encryptedFrames key nonces 0 (chunksOf file), ?_, ?_, ?_⟩
  · rw [sendFileMsgs, encryptChunksFrom_ok hk nonces (chunksOf file) 0]
  · rw [encryptedFrames_length, chunksOf_length]
  · have h0 := runReceiver_append cm peerId
      ((encryptedFrames key nonces 0 (chunksOf file)).map WireMsg.binaryChunk)
      (some ⟨fileId, name, file.length, (file.length + CHUNK_SIZE - 1) / CHUNK_SIZE, [], 0⟩)
      [.fileEnd fileId]
    simp only [runReceiver, handleMessage]
    rw [h0, runReceiver_chunks hk hn (chunksOf file) 0]
    simp [runReceiver, handleMessage, chunksOf_join]

/-- Witness for C2 at a concrete manager, key, nonce source and 3-byte file. -/
theorem claim_c2_chunking_roundtrip_witness :
    ∃ frames : List (List Nat),
      sendFileMsgs ⟨some 0, [("b", 5)]⟩ "b" (fun _ => List.replicate 12 0) 0 "f" [1, 2, 3] =
        .ok (.fileStart 0 "f" ([1, 2, 3] : List Nat).length
            ((([1, 2, 3] : List Nat).length + CHUNK_SIZE - 1) / CHUNK_SIZE)
          :: (frames.map WireMsg.binaryChunk ++ [.fileEnd 0])) ∧
      frames.length = (([1, 2, 3] : List Nat).length + CHUNK_SIZE - 1) / CHUNK_SIZE ∧
      runReceiver ⟨some 0, [("b", 5)]⟩ "b" none
        (.fileStart 0 "f" ([1, 2, 3] : List Nat).length
            ((([1, 2, 3] : List Nat).length + CHUNK_SIZE - 1) / CHUNK_SIZE)
          :: (frames.map WireMsg.binaryChunk ++ [.fileEnd 0])) =
        (none, [("f", [1, 2, 3])]) :=
  claim_c2_chunking_roundtrip ⟨some 0, [("b", 5)]⟩ "b" 5 (by decide)
    (fun _ => List.replicate 12 0) (fun _ => by simp) 0 "f" [1, 2, 3]

/-- Relay-carried records (`relay-data` payloads over the signaling
WebSocket).  The `chunk` record carries the declared transfer id and the
base64-encoded framed ciphertext; base64 encoding and decoding are exact
inverses (`btoa`/`atob`), so the payload is modelled as the byte list. -/
inductive RelayMsg
  | fileStart (fileId : Nat) (name : String) (size totalChunks : Nat)
  | chunk (fileId : Nat) (data : List Nat)
  | fileEnd (fileId : Nat)
  | textRecord (content : String)
  deriving DecidableEq, Repr

/-- Method `WebRTCManager.handleRelayData` for one peer: receiving any relay
payload switches the peer into relay mode; `file-start` installs the
transfer in the per-peer slot; a `chunk` is decrypted and appended only
when an in-flight transfer exists and its `fileId` matches the declared
one; `file-end` completes whatever transfer is in flight without checking
its `fileId`.  Returns the new relay-mode flag, the new transfer slot and
the completed files. -/
def handleRelayData (cm : CryptoManager) (peerId : String) (st : Option Transfer) :
    RelayMsg → Bool × Option Transfer × List (String × List Nat)
  | .fileStart fid name size total => (true, some ⟨fid, name, size, total, [], 0⟩, [])
  | .fileEnd _ =>
    match st with
    | some t => (true, none, [(t.name, t.chunks.flatten)])
    | none => (true, none, [])
  | .chunk fid d =>
    match st with
    | some t =>
      if t.fileId = fid then
        match cm.decryptChunk peerId d with
        | .ok pt =>
          (true, some { t with chunks := t.chunks ++ [pt],
                               received := t.received + pt.length }, [])
        | .error _ => (true, some t, [])
      else (true, some t, [])
    | none => (true, none, [])
  | .textRecord _ => (true, st, [])

/-- C7 counterexample: with an inbound transfer in flight whose transfer
id is 1, a `file-end` declaring the unrelated transfer id 2 is not
dropped on either path: `handleMessage` and `handleRelayData` both
complete and discard the in-flight transfer, modifying transfer state. -/
theorem claim_c7_counterexample :
    handleMessage ⟨some 0, [("b", 5)]⟩ "b" (some ⟨1, "f", 3, 1, [[9]], 1⟩)
        (.fileEnd 2) ≠ (some ⟨1, "f", 3, 1, [[9]], 1⟩, []) ∧
      handleMessage ⟨some 0, [("b", 5)]⟩ "b" (some ⟨1, "f", 3, 1, [[9]], 1⟩)
        (.fileEnd 2) = (none, [("f", [9])]) ∧
      handleRelayData ⟨some 0, [("b", 5)]⟩ "b" (some ⟨1, "f", 3, 1, [[9]], 1⟩)
        (.fileEnd 2) = (true, none, [("f", [9])]) := by
  refine ⟨?_, rfl, rfl⟩
  decide

/-- C7 as amended: inbound transfers are keyed by peer id.  A data chunk
arriving when no inbound transfer is in flight for the peer is dropped
without modifying transfer state on both paths; on the relay path a chunk
whose declared transfer id differs from the id of the in-flight transfer is
likewise dropped (direct-path binary chunks carry no transfer id); but a
`file-end` record is applied to whatever transfer is in flight for the
peer, regardless of the transfer id it declares. -/
theorem claim_c7_unknown_transfer_chunks_dropped (cm : CryptoManager) (peerId : String) :
    (∀ d, handleMessage cm peerId none (.binaryChunk d) = (none, [])) ∧
    (∀ fid d, handleRelayData cm peerId none (.chunk fid d) = (true, none, [])) ∧
    (∀ (t : Transfer) (fid : Nat) (d : List Nat), t.fileId ≠ fid →
      handleRelayData cm peerId (some t) (.chunk fid d) = (true, some t, [])) ∧
    (∀ (t : Transfer) (fid : Nat),
      handleMessage cm peerId (some t) (.fileEnd fid) = (none, [(t.name, t.chunks.flatten)]) ∧
      handleRelayData cm peerId (some t) (.fileEnd fid) =
        (true, none, [(t.name, t.chunks.flatten)])) := by
  refine ⟨fun d => rfl, fun fid d => rfl, ?_, fun t fid => ⟨rfl, rfl⟩⟩
  intro t fid d hne
  simp [handleRelayData, hne]

/-- Witness for the amended C7 at concrete transfer states and ids: a
relay chunk declaring transfer id 2 while transfer id 1 is in flight is
dropped with the state unchanged. -/
theorem claim_c7_unknown_transfer_chunks_dropped_witness :
    handleRelayData ⟨some 0, [("b", 5)]⟩ "b" (some ⟨1, "f", 3, 1, [[9]], 1⟩)
        (.chunk 2 [0]) = (true, some ⟨1, "f", 3, 1, [[9]], 1⟩, []) :=
  (claim_c7_unknown_transfer_chunks_dropped ⟨some 0, [("b", 5)]⟩ "b").2.2.1
    ⟨1, "f", 3, 1, [[9]], 1⟩ 2 [0] (by decide)

/-! ## Text messages (`WebRTCManager.sendText` / `_sendTextViaRelay`) -/

/-- Values `sendText` writes to the active transport: either
a stringified text record written to the data channel on the
direct channel, or a `relay-data` text record via the signaling carrier. -/
inductive TextOut
  | directSend (record : WireMsg)
  | relaySend (record : RelayMsg)
  deriving DecidableEq, Repr

/-- Method `WebRTCManager.sendText`: when the peer is in relay mode (or the
direct connection cannot be established) the text record goes through
`_sendTextViaRelay`; otherwise it is written to the data channel.  In
both cases the record carries the caller text verbatim — no call into
the crypto layer occurs on this path. -/
def sendText (relayModeFlag : Bool) (text : String) : TextOut :=
  if relayModeFlag then .relaySend (.textRecord text) else .directSend (.textRecord text)

/-- C3 evaluated at the failing input: the content written to the
transport by `sendText` is the plaintext text itself on both the direct
path and the relay path, not a ciphertext under the per-peer shared key
(contrast with the encrypted file-chunk path `CryptoManager.encryptChunk`,
which `sendText` never invokes). -/
theorem claim_c3_text_sent_plaintext :
    sendText false "hello" = .directSend (.textRecord "hello") ∧
    sendText true "hello" = .relaySend (.textRecord "hello") :=
  ⟨rfl, rfl⟩

/-! ## Offer collision handling (`WebRTCManager.handleOffer`) -/

/-- WebRTC signaling states reachable in this negotiation model. -/
inductive SigState
  | stable
  | haveLocalOffer
  | haveRemoteOffer
  deriving DecidableEq, Repr

/-- Per-peer negotiation session: the `makingOffer` / `ignoreOffer` flags
and the signaling state of the connection with its local and remote session
descriptions (descriptions are abstract `Nat` ids). -/
structure NegSession where
  makingOffer : Bool
  ignoreOffer : Bool
  signalingState : SigState
  localDesc : Option Nat
  remoteDesc : Option Nat
  deriving DecidableEq, Repr

/-- Method `WebRTCManager.handleOffer` on an existing session: computes the
offer-collision condition (makingOffer, or a signaling state that is
neither stable nor have-local-offer), ignores the offer when impolite
under collision, otherwise rolls back an in-progress local offer, sets
the remote description and answers (`setLocalDescription(answer)` ends in
`stable`).  Returns the session and whether an answer was sent. -/
def handleOffer (myPeerId : Option String) (peerId : String) (s : NegSession)
    (offerSdp answerSdp : Nat) : NegSession × Bool :=
  let polite := isPolite myPeerId peerId
  let collision := s.makingOffer ||
    (decide (s.signalingState ≠ .stable) && decide (s.signalingState ≠ .haveLocalOffer))
  let ignore := !polite && collision
  let s1 := { s with ignoreOffer := ignore }
  if ignore then (s1, false)
  else
    let s2 :=
      if s1.signalingState = .haveLocalOffer then
        { s1 with signalingState := .stable, localDesc := none }
      else s1
    let s3 := { s2 with signalingState := .haveRemoteOffer, remoteDesc := some offerSdp }
    ({ s3 with signalingState := .stable, localDesc := some answerSdp }, true)

theorem isPolite_b_a_false : isPolite (some "b") "a" = false := by
  simp only [isPolite]
  rw [if_neg (by decide)]
  simp only [decide_eq_false_iff_not]
  rw [String.lt_iff_toList_lt]
  decide

theorem isPolite_a_b_true : isPolite (some "a") "b" = true := by
  simp only [isPolite]
  rw [if_neg (by decide)]
  simp only [decide_eq_true_eq]
  rw [String.lt_iff_toList_lt]
  decide

/-- C4 counterexample: the impolite peer "b" receives a remote offer from
"a" while its own offer is already sent — signaling state
have-local-offer, a state that cannot accept a remote offer, with
`makingOffer` already cleared by the `finally` of `createOffer`.  The
claim says the impolite peer ignores the offer and changes no session
state; the code computes no collision (`have-local-offer` is excluded
from its collision test), rolls back, accepts the remote offer and
answers it, overwriting the session. -/
theorem claim_c4_counterexample :
    handleOffer (some "b") "a" ⟨false, false, .haveLocalOffer, some 3, none⟩ 7 9 =
      ({ makingOffer := false, ignoreOffer := false, signalingState := .stable,
         localDesc := some 9, remoteDesc := some 7 }, true) ∧
    handleOffer (some "b") "a" ⟨false, false, .haveLocalOffer, some 3, none⟩ 7 9 ≠
      (⟨false, true, .haveLocalOffer, some 3, none⟩, false) ∧
    isPolite (some "b") "a" = false := by
  have heq : handleOffer (some "b") "a" ⟨false, false, .haveLocalOffer, some 3, none⟩ 7 9 =
      ({ makingOffer := false, ignoreOffer := false, signalingState := .stable,
         localDesc := some 9, remoteDesc := some 7 }, true) := by
    simp [handleOffer, isPolite_b_a_false]
  refine ⟨heq, ?_, isPolite_b_a_false⟩
  rw [heq]
  decide

/-- C4 as amended: under the collision condition the code actually tests
(the local side is making an offer, or the signaling state is neither
stable nor have-local-offer), the impolite peer ignores the incoming
offer — no answer is sent and the session is unchanged except for
recording the ignore decision in the `ignoreOffer` flag — while the
polite peer rolls back any in-progress local offer, accepts the remote
offer as its remote description and answers it, ending in the stable
state.  A remote offer arriving in the have-local-offer state with
`makingOffer` already cleared (local offer already sent) is not treated
as a collision: the peer — polite or impolite — rolls back its own
offer, accepts the remote offer and answers it. -/
theorem claim_c4_collision_behavior (myPeerId : Option String) (peerId : String)
    (s : NegSession) (offerSdp answerSdp : Nat) :
    ((s.makingOffer ||
        (decide (s.signalingState ≠ .stable) &&
          decide (s.signalingState ≠ .haveLocalOffer))) = true →
      (isPolite myPeerId peerId = false →
        handleOffer myPeerId peerId s offerSdp answerSdp =
          ({ s with ignoreOffer := true }, false)) ∧
      (isPolite myPeerId peerId = true →
        handleOffer myPeerId peerId s offerSdp answerSdp =
          ({ s with ignoreOffer := false, signalingState := .stable,
                    localDesc := some answerSdp, remoteDesc := some offerSdp }, true))) ∧
    (s.makingOffer = false → s.signalingState = .haveLocalOffer →
      handleOffer myPeerId peerId s offerSdp answerSdp =
        ({ s with ignoreOffer := false, signalingState := .stable,
                  localDesc := some answerSdp, remoteDesc := some offerSdp }, true)) := by
  constructor
  · intro hcol
    constructor
    · intro hpol
      simp only [handleOffer, hpol, hcol]
      rfl
    · intro hpol
      simp only [handleOffer, hpol, hcol, Bool.not_true, Bool.false_and,
        Bool.and_self, if_neg (Bool.false_ne_true)]
      by_cases hst : s.signalingState = SigState.haveLocalOffer <;> simp [hst]
  · intro hmk hst
    simp [handleOffer, hmk, hst]

/-- Witness for the amended C4: the impolite and the polite peer under a
`makingOffer` collision, and the impolite peer receiving an offer in the
have-local-offer state with `makingOffer` cleared. -/
theorem claim_c4_collision_behavior_witness :
    handleOffer (some "b") "a" ⟨true, false, .stable, some 3, none⟩ 7 9 =
      ({ makingOffer := true, ignoreOffer := true, signalingState := .stable,
         localDesc := some 3, remoteDesc := none }, false) ∧
    handleOffer (some "a") "b" ⟨true, false, .stable, some 3, none⟩ 7 9 =
      ({ makingOffer := true, ignoreOffer := false, signalingState := .stable,
         localDesc := some 9, remoteDesc := some 7 }, true) ∧
    handleOffer (some "b") "a" ⟨false, false, .haveLocalOffer, some 3, none⟩ 7 9 =
      ({ makingOffer := false, ignoreOffer := false, signalingState := .stable,
         localDesc := some 9, remoteDesc := some 7 }, true) :=
  ⟨((claim_c4_collision_behavior (some "b") "a" ⟨true, false, .stable, some 3, none⟩ 7 9).1
      (by decide)).1 isPolite_b_a_false,
    ((claim_c4_collision_behavior (some "a") "b" ⟨true, false, .stable, some 3, none⟩ 7 9).1
      (by decide)).2 isPolite_a_b_true,
    (claim_c4_collision_behavior (some "b") "a"
      ⟨false, false, .haveLocalOffer, some 3, none⟩ 7 9).2 rfl rfl⟩

/-! ## ICE restart bounding (`_attemptIceRestart`,
`_handleIceConnectionStateChange`, `_handleConnectionStateChange`) -/

/-- Constant `MAX_ICE_RESTARTS = 2` in `webrtc.js`. -/
def MAX_ICE_RESTARTS : Nat := 2

/-- Per-peer restart bookkeeping: the `iceRestartCounts` map entry (an
absent entry reads as 0, matching the `get(peerId) || 0` read in the code, so the
deleted entry is modelled as 0) and whether `closeConnection` has forced
the session closed. -/
structure IcePeerState where
  iceRestartCount : Nat
  closed : Bool
  deriving DecidableEq, Repr

/-- Connectivity events concerning one peer that drive the restart
logic: the disconnected grace timer firing while still disconnected, ICE
failure, ICE success (`connected`/`completed`), and the connection-level
`failed`/`closed` states. -/
inductive IceEvent
  | iceDisconnectedExpired
  | iceFailed
  | iceConnected
  | iceCompleted
  | connectionFailed
  | connectionClosed
  deriving DecidableEq, Repr

/-- Method `WebRTCManager._attemptIceRestart`: returns unchanged when the
restart count has reached `MAX_ICE_RESTARTS`; otherwise it increments the
count and performs a restart (the returned flag). -/
def attemptIceRestart (s : IcePeerState) : IcePeerState × Bool :=
  if MAX_ICE_RESTARTS ≤ s.iceRestartCount then (s, false)
  else ({ s with iceRestartCount := s.iceRestartCount + 1 }, true)

/-- One step of the per-peer restart state machine, dispatching the event
to `_handleIceConnectionStateChange` / `_handleConnectionStateChange`.  A
session already closed emits no further events (a closed
`RTCPeerConnection` fires no state changes), modelled as a no-op.  The
second component records whether an ICE restart was performed. -/
def iceStep (s : IcePeerState) (e : IceEvent) : IcePeerState × Bool :=
  if s.closed then (s, false)
  else
    match e with
    | .iceDisconnectedExpired => attemptIceRestart s
    | .iceFailed => attemptIceRestart s
    | .iceConnected => ({ s with iceRestartCount := 0 }, false)
    | .iceCompleted => ({ s with iceRestartCount := 0 }, false)
    | .connectionFailed =>
      if MAX_ICE_RESTARTS ≤ s.iceRestartCount then
        ({ s with iceRestartCount := 0, closed := true }, false)
      else (s, false)
    | .connectionClosed => ({ s with iceRestartCount := 0, closed := true }, false)

/-- Folding `iceStep` over an event sequence, counting the ICE restarts
performed. -/
def runIce (s : IcePeerState) : List IceEvent → IcePeerState × Nat
  | [] => (s, 0)
  | e :: es =>
    let r1 := iceStep s e
    let r2 := runIce r1.1 es
    (r2.1, (if r1.2 then 1 else 0) + r2.2)

theorem runIce_cons (s : IcePeerState) (e : IceEvent) (es : List IceEvent) :
    runIce s (e :: es) =
      ((runIce (iceStep s e).1 es).1,
        (if (iceStep s e).2 then 1 else 0) + (runIce (iceStep s e).1 es).2) := rfl

theorem runIce_closed (es : List IceEvent) :
    ∀ s : IcePeerState, s.closed = true → runIce s es = (s, 0) := by
  induction es with
  | nil => intro s _; rfl
  | cons e es ih =>
    intro s hs
    have hstep : iceStep s e = (s, false) := by simp [iceStep, hs]
    rw [runIce_cons, hstep]
    simp [ih s hs]

theorem iceStep_failure (s : IcePeerState) (e : IceEvent) (hc : s.closed = false)
    (he : e = .iceDisconnectedExpired ∨ e = .iceFailed ∨
      e = .connectionFailed ∨ e = .connectionClosed) :
    iceStep s e = (s, false) ∨
    (s.iceRestartCount < MAX_ICE_RESTARTS ∧
      iceStep s e = ({ s with iceRestartCount := s.iceRestartCount + 1 }, true)) ∨
    ((iceStep s e).1.closed = true ∧ (iceStep s e).2 = false) := by
  rcases he with he | he | he | he <;> subst he
  · by_cases hmax : MAX_ICE_RESTARTS ≤ s.iceRestartCount
    · exact Or.inl (by simp [iceStep, hc, attemptIceRestart, hmax])
    · exact Or.inr (Or.inl ⟨by omega, by simp [iceStep, hc, attemptIceRestart, hmax]⟩)
  · by_cases hmax : MAX_ICE_RESTARTS ≤ s.iceRestartCount
    · exact Or.inl (by simp [iceStep, hc, attemptIceRestart, hmax])
    · exact Or.inr (Or.inl ⟨by omega, by simp [iceStep, hc, attemptIceRestart, hmax]⟩)
  · by_cases hmax : MAX_ICE_RESTARTS ≤ s.iceRestartCount
    · exact Or.inr (Or.inr (by simp [iceStep, hc, hmax]))
    · exact Or.inl (by simp [iceStep, hc, hmax])
  · exact Or.inr (Or.inr (by simp [iceStep, hc]))

theorem runIce_restart_bound :
    ∀ (es : List IceEvent) (s : IcePeerState),
    (∀ e ∈ es, e = .iceDisconnectedExpired ∨ e = .iceFailed ∨
      e = .connectionFailed ∨ e = .connectionClosed) →
    (runIce s es).2 ≤ MAX_ICE_RESTARTS - s.iceRestartCount := by
  intro es
  induction es with
  | nil => intro s _; simp [runIce]
  | cons e es ih =>
    intro s hev
    have hes : ∀ e2 ∈ es, e2 = .iceDisconnectedExpired ∨ e2 = .iceFailed ∨
        e2 = .connectionFailed ∨ e2 = .connectionClosed :=
      fun e2 h2 => hev e2 (List.mem_cons_of_mem e h2)
    rw [runIce_cons]
    by_cases hc : s.closed = true
    · have hstep : iceStep s e = (s, false) := by simp [iceStep, hc]
      rw [hstep]
      simpa using ih s hes
    · have hc2 : s.closed = false := by
        exact Bool.not_eq_true s.closed ▸ eq_false_of_ne_true hc
      rcases iceStep_failure s e hc2 (hev e (List.mem_cons_self e es)) with
        hstep | ⟨hlt, hstep⟩ | ⟨hclosed, hrestart⟩
      · rw [hstep]
        simpa using ih s hes
      · rw [hstep]
        have h2 := ih { s with iceRestartCount := s.iceRestartCount + 1 } hes
        simp only [MAX_ICE_RESTARTS, if_true] at h2 hlt ⊢
        omega
      · rw [runIce_closed es _ hclosed, hrestart]
        simp

/-- C5: over any sequence of ICE failure and disconnection events for one
peer, the number of ICE restarts performed never exceeds the configured
maximum of 2; once the bound is reached, a further connection failure
forces the peer session closed; and reaching the `connected` or
`completed` ICE state resets the restart counter to zero. -/
theorem claim_c5_ice_restart_bound (es : List IceEvent)
    (hev : ∀ e ∈ es, e = .iceDisconnectedExpired ∨ e = .iceFailed ∨
      e = .connectionFailed ∨ e = .connectionClosed) :
    MAX_ICE_RESTARTS = 2 ∧
    (runIce ⟨0, false⟩ es).2 ≤ MAX_ICE_RESTARTS ∧
    (∀ s : IcePeerState, s.closed = false → MAX_ICE_RESTARTS ≤ s.iceRestartCount →
      (iceStep s .connectionFailed).1.closed = true) ∧
    (∀ s : IcePeerState, s.closed = false →
      (iceStep s .iceConnected).1.iceRestartCount = 0 ∧
      (iceStep s .iceCompleted).1.iceRestartCount = 0) := by
  refine ⟨rfl, ?_, ?_, ?_⟩
  · simpa using runIce_restart_bound es ⟨0, false⟩ hev
  · intro s hc hmax
    simp [iceStep, hc, hmax]
  · intro s hc
    constructor <;> simp [iceStep, hc]

/-- Witness for C5 on a concrete event trace with three ICE failures
followed by a connection failure. -/
theorem claim_c5_ice_restart_bound_witness :
    MAX_ICE_RESTARTS = 2 ∧
    (runIce ⟨0, false⟩
      [.iceFailed, .iceFailed, .iceFailed, .connectionFailed]).2 ≤ MAX_ICE_RESTARTS ∧
    (∀ s : IcePeerState, s.closed = false → MAX_ICE_RESTARTS ≤ s.iceRestartCount →
      (iceStep s .connectionFailed).1.closed = true) ∧
    (∀ s : IcePeerState, s.closed = false →
      (iceStep s .iceConnected).1.iceRestartCount = 0 ∧
      (iceStep s .iceCompleted).1.iceRestartCount = 0) :=
  claim_c5_ice_restart_bound [.iceFailed, .iceFailed, .iceFailed, .connectionFailed]
    (by decide)

/-! ## Remote ICE candidate handling (`handleIceCandidate`,
`_flushPendingCandidates`, `createConnection`) -/

/-- A peer connection as seen by the candidate-handling code: whether a
remote description has been set, and the remote candidates successfully
applied, in order. -/
structure PeerConn where
  remoteDescSet : Bool
  addedCandidates : List Nat
  deriving DecidableEq, Repr

/-- Modelled from the spec: the platform `RTCPeerConnection.addIceCandidate`,
which rejects (InvalidStateError) when no remote description is set; the
flag reports success.  Callers in `webrtc.js` catch the rejection and
merely log it, so a failed add leaves the connection unchanged. -/
def addIceCandidate (pc : PeerConn) (c : Nat) : PeerConn × Bool :=
  if pc.remoteDescSet then ({ pc with addedCandidates := pc.addedCandidates ++ [c] }, true)
  else (pc, false)

/-- Per-peer candidate-handling state: the `connections` map entry and the
`pendingCandidates` buffer (an absent buffer is the empty list). -/
structure CandMgr where
  connection : Option PeerConn
  pendingCandidates : List Nat
  deriving DecidableEq, Repr

/-- Method `WebRTCManager._flushPendingCandidates`: adds every buffered candidate
in order (per-candidate failures are caught and logged) and then deletes
the buffer; the caller passes the connection the flush targets. -/
def flushPendingCandidates (pending : List Nat) (pc : PeerConn) : PeerConn :=
  pending.foldl (fun p c => (addIceCandidate p c).1) pc

/-- Method `WebRTCManager.handleIceCandidate`: applies the candidate immediately
when a connection with a set remote description exists, otherwise appends
it to the pending buffer. -/
def handleIceCandidate (m : CandMgr) (c : Nat) : CandMgr :=
  match m.connection with
  | some pc =>
    if pc.remoteDescSet then { m with connection := some (addIceCandidate pc c).1 }
    else { m with pendingCandidates := m.pendingCandidates ++ [c] }
  | none => { m with pendingCandidates := m.pendingCandidates ++ [c] }

/-- Method `WebRTCManager.createConnection`: returns the existing connection if
present; otherwise creates a fresh connection (no remote description yet)
and immediately flushes the pending candidate buffer into it. -/
def createConnection (m : CandMgr) : CandMgr :=
  match m.connection with
  | some _ => m
  | none =>
    { connection := some (flushPendingCandidates m.pendingCandidates ⟨false, []⟩),
      pendingCandidates := [] }

/-- The `setRemoteDescription` step of `handleOffer` / `handleAnswer`
followed by its `_flushPendingCandidates` call. -/
def setRemoteDescriptionAndFlush (m : CandMgr) : CandMgr :=
  match m.connection with
  | some pc =>
    { connection := some (flushPendingCandidates m.pendingCandidates
        { pc with remoteDescSet := true }),
      pendingCandidates := [] }
  | none => m

/-- C8 evaluated at the failing input: candidate 7 arrives before any
connection exists and is buffered; `createConnection` (the `handleOffer`
path) then flushes the buffer into the fresh connection before any remote
description is set, so the add fails and the buffer is deleted; after the
remote description is finally set, no candidate has been applied — the
buffered candidate was discarded before the remote description was set,
contrary to the claim. -/
theorem claim_c8_buffered_candidate_lost :
    handleIceCandidate ⟨none, []⟩ 7 = ⟨none, [7]⟩ ∧
    createConnection (handleIceCandidate ⟨none, []⟩ 7) = ⟨some ⟨false, []⟩, []⟩ ∧
    setRemoteDescriptionAndFlush (createConnection (handleIceCandidate ⟨none, []⟩ 7)) =
      ⟨some ⟨true, []⟩, []⟩ :=
  ⟨rfl, rfl, rfl⟩

/-! ## Per-peer teardown (`WebRTCManager.closeConnection`,
`CryptoManager.removePeer`) -/

/-- Snapshot of every per-peer map entry held by `WebRTCManager` for one
peer (each `Map` entry is an `Option`), plus the stored shared
secret for that peer in the crypto manager. -/
structure PeerStateSnapshot where
  disconnectedTimer : Option Nat
  dataChannel : Option Nat
  connection : Option Nat
  pendingCandidatesEntry : Option (List Nat)
  pendingConnection : Option Nat
  iceRestartCountEntry : Option Nat
  makingOfferEntry : Option Bool
  ignoreOfferEntry : Option Bool
  relayModeEntry : Option Bool
  incomingTransferEntry : Option Transfer
  sharedSecret : Option Nat
  deriving DecidableEq, Repr

/-- Method `WebRTCManager.closeConnection` acting on the state of one peer: cancels
the disconnected timer, closes and deletes the data channel and the
connection, deletes the pending candidates, pending connection, restart
count and negotiation flags, and removes the stored shared
secret.  It does not touch `relayMode` or `incomingTransfers`. -/
def closeConnection (s : PeerStateSnapshot) : PeerStateSnapshot :=
  { disconnectedTimer := none
    dataChannel := none
    connection := none
    pendingCandidatesEntry := none
    pendingConnection := none
    iceRestartCountEntry := none
    makingOfferEntry := none
    ignoreOfferEntry := none
    relayModeEntry := s.relayModeEntry
    incomingTransferEntry := s.incomingTransferEntry
    sharedSecret := none }

/-- C9 counterexample: for a peer in relay mode with an in-flight inbound
transfer, `closeConnection` leaves both the relay-mode flag and the
inbound transfer state in place, so it does not clear every piece of
per-peer state as claimed. -/
theorem claim_c9_counterexample :
    ¬((closeConnection ⟨some 1, some 2, some 3, some [4], some 5, some 1, some true,
        some false, some true, some ⟨1, "f", 3, 1, [[9]], 1⟩, some 5⟩).relayModeEntry = none ∧
      (closeConnection ⟨some 1, some 2, some 3, some [4], some 5, some 1, some true,
        some false, some true, some ⟨1, "f", 3, 1, [[9]], 1⟩, some 5⟩).incomingTransferEntry
        = none) := by
  decide

theorem lookup_filter_ne (p : String) : ∀ l : List (String × Nat),
    (l.filter fun kv => kv.1 ≠ p).lookup p = none
  | [] => rfl
  | (k, v) :: l => by
      rw [List.filter_cons]
      by_cases hk : k = p
      · rw [if_neg (by simp [hk])]
        exact lookup_filter_ne p l
      · rw [if_pos (by simp [hk])]
        have hbeq : (p == k) = false := by
          simp only [beq_eq_false_iff_ne, ne_eq]
          exact fun h => hk h.symm
        rw [List.lookup, hbeq]
        exact lookup_filter_ne p l

/-- C9 as amended: `closeConnection` cancels the timer of the peer, removes
its connection and data channel, clears the pending candidates, pending
connection, restart counter and negotiation flags, and discards the
stored shared secret (`CryptoManager.removePeer`, itself idempotent and
leaving `hasSharedSecret` false); calling it again changes nothing
(idempotent).  It leaves the relay-mode flag and any in-flight inbound
transfer state for the peer in place. -/
theorem claim_c9_close_clears (s : PeerStateSnapshot) (cm : CryptoManager) (p : String) :
    closeConnection s =
      { disconnectedTimer := none, dataChannel := none, connection := none,
        pendingCandidatesEntry := none, pendingConnection := none,
        iceRestartCountEntry := none, makingOfferEntry := none, ignoreOfferEntry := none,
        relayModeEntry := s.relayModeEntry,
        incomingTransferEntry := s.incomingTransferEntry, sharedSecret := none } ∧
    closeConnection (closeConnection s) = closeConnection s ∧
    (cm.removePeer p).hasSharedSecret p = false ∧
    (cm.removePeer p).removePeer p = cm.removePeer p := by
  refine ⟨rfl, rfl, ?_, ?_⟩
  · show (List.lookup p ((cm.removePeer p).sharedSecrets)).isSome = false
    have hfil : (cm.removePeer p).sharedSecrets
        = cm.sharedSecrets.filter (fun kv => kv.1 ≠ p) := rfl
    rw [hfil, lookup_filter_ne p, Option.isSome_none]
  · simp [CryptoManager.removePeer, List.filter_filter]

/-! ## Key-pair precondition of `CryptoManager.importPeerPublicKey` -/

/-- ECDH key derivation (`crypto.subtle.deriveKey`) combining the local
private key with the public key of the peer. -/
def deriveSharedKey (priv pubPeer : Nat) : Nat := Nat.pair priv pubPeer

/-- Method `CryptoManager.generateKeyPair`: installs a fresh key pair (the
randomness is an explicit input). -/
def CryptoManager.generateKeyPair (cm : CryptoManager) (fresh : Nat) : CryptoManager × Nat :=
  ({ cm with keyPair := some fresh }, fresh)

/-- Method `CryptoManager.exportPublicKey`: lazily generates a key pair when
absent, then serializes the public key (abstract id). -/
def CryptoManager.exportPublicKey (cm : CryptoManager) (fresh : Nat) : CryptoManager × Nat :=
  match cm.keyPair with
  | none => ({ cm with keyPair := some fresh }, fresh)
  | some kp => (cm, kp)

/-- Method `CryptoManager.importPeerPublicKey`: derives the shared secret from
`this.keyPair.privateKey` and the imported peer key and stores it for the
peer (overwriting any prior key).  When no key pair exists, the property
access on `null` raises a TypeError instead of lazily generating one. -/
def CryptoManager.importPeerPublicKey (cm : CryptoManager) (peerId : String)
    (publicKeyBase64 : Nat) : Except CryptoError CryptoManager :=
  match cm.keyPair with
  | none => .error .typeError
  | some kp =>
    .ok { cm with sharedSecrets :=
      (peerId, deriveSharedKey kp publicKeyBase64) ::
        cm.sharedSecrets.filter (fun kv => kv.1 ≠ peerId) }

/-- The key-exchange fragment of `WebRTCManager.handleOffer`: when the
offer carries a public key it is imported first, and only afterwards is
the local public key exported (which is what would lazily create the
local key pair). -/
def handleOfferKeyExchange (cm : CryptoManager) (peerId : String)
    (offerPublicKey : Option Nat) (fresh : Nat) : Except CryptoError (CryptoManager × Nat) :=
  match offerPublicKey with
  | some pk =>
    match cm.importPeerPublicKey peerId pk with
    | .error e => .error e
    | .ok cm1 => .ok (cm1.exportPublicKey fresh)
  | none => .ok (cm.exportPublicKey fresh)

/-- C10: `importPeerPublicKey` has the unstated precondition that a local
key pair exists — with no key pair it fails with a TypeError (null
dereference) rather than lazily generating an identity or raising a
key-import error; the offer-handling path imports the remote key before
exporting the local key, so on a fresh manager the whole exchange fails
with that TypeError, even though running the export first would have
established the precondition. -/
theorem claim_c10_import_requires_keypair (cm : CryptoManager) (peerId : String)
    (pk fresh : Nat) (h : cm.keyPair = none) :
    cm.importPeerPublicKey peerId pk = .error .typeError ∧
    handleOfferKeyExchange cm peerId (some pk) fresh = .error .typeError ∧
    (((cm.exportPublicKey fresh).1).importPeerPublicKey peerId pk).isOk = true := by
  refine ⟨?_, ?_, ?_⟩
  · simp [CryptoManager.importPeerPublicKey, h]
  · simp [handleOfferKeyExchange, CryptoManager.importPeerPublicKey, h]
  · simp [CryptoManager.exportPublicKey, h, CryptoManager.importPeerPublicKey, Except.isOk,
      Except.toBool]

/-- Witness for C10 on a fresh crypto manager with no key pair. -/
theorem claim_c10_import_requires_keypair_witness :
    CryptoManager.importPeerPublicKey ⟨none, []⟩ "b" 3 = .error .typeError ∧
    handleOfferKeyExchange ⟨none, []⟩ "b" (some 3) 4 = .error .typeError ∧
    (((CryptoManager.exportPublicKey ⟨none, []⟩ 4).1).importPeerPublicKey "b" 3).isOk
      = true :=
  claim_c10_import_requires_keypair ⟨none, []⟩ "b" 3 4 rfl

end CloudDrop
